import Mathlib

/-
Verification of the GoodreadsScraper extraction core.

This file gives a shallow embedding of the two source files of the
repository and proves or refutes the frozen claims about them.

Embedding conventions:
 * Python JSON values become the inductive `Json`; Python strings become
   `List Char`; dicts become insertion-ordered association lists (keys
   unique in every reachable state, as for Python dicts).
 * The generator `visit_path` of `GoodreadsScraper/items.py`, materialized
   by `list(...)` as in `json_field_extractor_v2`, becomes a function
   producing `Except Unit (List Json)`: `.ok` is a completed materialized
   match list, `.error ()` is an uncaught Python exception
   (AttributeError / TypeError) escaping the generator.
 * The recursion of `visit_path` is embedded with an explicit fuel
   parameter (`visitF`): fuel counts recursion depth.  `pathFuel` is the
   depth budget derived from the path alone, and the development proves
   this budget is always sufficient, which is exactly the spec's
   "recursion depth is bounded by the path's segment count" property.
 * `deduplicate_text` of `items.py` and `combine_and_dedupe` of
   `combine_files.py` are embedded directly.
-/

set_option autoImplicit false
set_option maxRecDepth 10000

namespace GoodreadsScraper

/-- A JSON value: null, boolean, number, string, ordered sequence, or
mapping from string key to value.  Numbers are modelled as integers;
the embedded code only ever inspects a number's truthiness. -/
inductive Json where
  | null
  | bool (b : Bool)
  | num (n : Int)
  | str (s : List Char)
  | arr (xs : List Json)
  | obj (kvs : List (List Char × Json))

/-- Python truthiness of a JSON value, as tested by `if not data:` in
`visit_path` and by `if url and ...` in `combine_and_dedupe`. -/
def truthy : Json → Bool
  | .null => false
  | .bool b => b
  | .num n => n != 0
  | .str s => !s.isEmpty
  | .arr xs => !xs.isEmpty
  | .obj kvs => !kvs.isEmpty

/-- Whether a JSON value is a mapping (a Python dict). -/
def isObjB : Json → Bool
  | .obj _ => true
  | _ => false

/-- Split a key at its first dot, mirroring
`idx = key.index('.'); subkey, remaining_key = key[:idx], key[idx+1:]`
when `'.' in key`, and `subkey, remaining_key = key, None` otherwise.
The second component is `none` exactly when the key holds no dot. -/
def splitDot : List Char → List Char × Option (List Char)
  | [] => ([], none)
  | c :: cs =>
    if c = '.' then ([], some cs)
    else
      let r := splitDot cs
      (c :: r.1, r.2)

/-- Number of dots in a key; one less than its number of segments. -/
def dotCount : List Char → Nat
  | [] => 0
  | c :: cs => (if c = '.' then 1 else 0) + dotCount cs

/-- Python `token.endswith(c)` for a single character `c`. -/
def endsWithChar (c : Char) (l : List Char) : Bool :=
  match l.reverse with
  | [] => false
  | d :: _ => d == c

/-- Python `token.endswith('[]')`. -/
def endsWithBrack (l : List Char) : Bool :=
  match l.reverse with
  | d1 :: d2 :: _ => d1 == ']' && d2 == '['
  | _ => false

/-- Python `token.startswith(c)` for a single character `c`. -/
def startsWithChar (c : Char) (l : List Char) : Bool :=
  match l with
  | [] => false
  | d :: _ => d == c

/-- Python `s.split(",")`: always returns at least one (possibly empty)
group. -/
def splitComma : List Char → List (List Char)
  | [] => [[]]
  | c :: cs =>
    if c = ',' then [] :: splitComma cs
    else
      match splitComma cs with
      | [] => [[c]]
      | g :: gs => (c :: g) :: gs

/-- Python `data.get(tok)` on a dict rendered as an association list:
the value at the first matching key, if any.  (Python dict keys are
unique, so first-match agrees with dict lookup.) -/
def keyGet (kvs : List (List Char × Json)) (tok : List Char) : Option Json :=
  (kvs.find? (fun p => p.1 == tok)).map (fun p => p.2)

/-- Result of materializing the `visit_path` generator with `list(...)`:
either the full list of yielded values, or an uncaught exception. -/
abbrev ExRes := Except Unit (List Json)

/-- Sequential `yield from` over a list of branches: concatenates the
yields in order; an exception in one branch aborts the whole
materialization, and exhausted fuel (`none`) propagates. -/
def seqE (f : Json → Option ExRes) : List Json → Option ExRes
  | [] => some (.ok [])
  | v :: vs =>
    match f v with
    | none => none
    | some (.error u) => some (.error u)
    | some (.ok r) =>
      match seqE f vs with
      | none => none
      | some (.error u) => some (.error u)
      | some (.ok rs) => some (.ok (r ++ rs))

/-- Concatenation of already-materialized branch results, first
exception wins; the fuel-free counterpart of `seqE`. -/
def exceptConcat : List ExRes → ExRes
  | [] => .ok []
  | e :: es =>
    match e with
    | .error u => .error u
    | .ok r =>
      match exceptConcat es with
      | .error u => .error u
      | .ok rs => .ok (r ++ rs)

/-- One unfolding of the body of `visit_path(data, key, original_key)`
from `GoodreadsScraper/items.py` (the `original_key` argument only feeds
debug prints and is dropped; `DEBUG` is `False`).  `rec` stands for the
recursive occurrences of `visit_path`.  `key = none` is Python `None`;
`key = some []` is the empty string; both are falsy.

Branches, in source order:
 1. `if not data: return` - falsy data yields nothing;
 2. `if not key: yield data; return`;
 3. split at the first dot into `subkey` and `remaining_key`;
 4. `subkey.endswith('*')`: fan out over every dict key starting with
    `subkey[:-1]`; `data.keys()` on a non-dict raises AttributeError;
 5. `subkey.endswith('[]')`: iterate `data.get(subkey[:-2], [])`;
    iterating a dict yields its keys, iterating a string yields its
    one-character substrings, iterating null/bool/number raises
    TypeError; `data.get` on a non-dict raises AttributeError;
 6. `subkey.startswith('[') and subkey.endswith(']')`: yield the one
    composite `{n: data.get(n, None) for n in subkey[1:-1].split(",")}`
    (insertion order = name order; the source never uses duplicate
    names) and ignore any remaining key;
 7. otherwise recurse into `data.get(subkey, None)`. -/
def visitBody (rec : Json → Option (List Char) → Option ExRes)
    (data : Json) (key : Option (List Char)) : Option ExRes :=
  if truthy data = false then some (.ok [])
  else
    match key with
    | none => some (.ok [data])
    | some k =>
      if k = [] then some (.ok [data])
      else
        let sub := (splitDot k).1
        let rem := (splitDot k).2
        if endsWithChar '*' sub then
          match data with
          | .obj kvs =>
            seqE (fun v => rec v rem)
              ((kvs.filter (fun p => sub.dropLast.isPrefixOf p.1)).map (fun p => p.2))
          | _ => some (.error ())
        else if endsWithBrack sub then
          match data with
          | .obj kvs =>
            match keyGet kvs sub.dropLast.dropLast with
            | none => some (.ok [])
            | some (.arr xs) => seqE (fun v => rec v rem) xs
            | some (.obj kvs2) => seqE (fun v => rec v rem) (kvs2.map (fun p => Json.str p.1))
            | some (.str s) => seqE (fun v => rec v rem) (s.map (fun c => Json.str [c]))
            | some _ => some (.error ())
          | _ => some (.error ())
        else if startsWithChar '[' sub && endsWithChar ']' sub then
          match data with
          | .obj kvs =>
            some (.ok [Json.obj ((splitComma ((sub.drop 1).dropLast)).map
              (fun nm => (nm, (keyGet kvs nm).getD Json.null)))])
          | _ => some (.error ())
        else
          match data with
          | .obj kvs => rec ((keyGet kvs sub).getD Json.null) rem
          | _ => some (.error ())

/-- Fuel-indexed interpreter for `visit_path`: `none` means the given
recursion-depth budget was exhausted. -/
def visitF : Nat → Json → Option (List Char) → Option ExRes
  | 0, _, _ => none
  | n + 1, data, key => visitBody (fun v r => visitF n v r) data key

/-- Depth budget derived from the path alone: its segment count plus
one (a key with `d` dots has `d + 1` segments). -/
def pathFuel : Option (List Char) → Nat
  | none => 0 + 1
  | some k => dotCount k + 1 + 1

/-- The materialized matcher `list(visit_path(data, key, key))`: run the
fuel-indexed interpreter at the budget derived from the path.  The
development proves this budget always suffices (`visitF_isSome`), so the
`.getD` default is never taken. -/
def visit_path (data : Json) (key : Option (List Char)) : ExRes :=
  (visitF (pathFuel key) data key).getD (.ok [])

/-- Entry point as called from `json_field_extractor_v2`: the path
arrives as a string. -/
def visitPath (data : Json) (key : String) : ExRes :=
  visit_path data (some key.data)

/-- The split-point test of `deduplicate_text` at candidate `p`:
`first_part = text[:p]`, `signature_len = min(100, len(first_part))`,
succeed when `signature_len > 50` and `text[p:]` starts with
`first_part[:signature_len]`. -/
def dedupCond (text : List Char) (p : Nat) : Bool :=
  decide (50 < min 100 (text.take p).length) &&
    (((text.take p).take (min 100 (text.take p).length)).isPrefixOf (text.drop p))

/-- The scan `for split_point in range(p, p + k)` of `deduplicate_text`:
return `text[:split_point]` at the first passing candidate, `none` when
the range is exhausted. -/
def dedupLoop (text : List Char) : Nat → Nat → Option (List Char)
  | _, 0 => none
  | p, k + 1 =>
    if dedupCond text p then some (text.take p) else dedupLoop text (p + 1) k

/-- The text normalizer `deduplicate_text(text)` of
`GoodreadsScraper/items.py`: texts shorter than 100 characters (which
includes the empty text, so `if not text` is subsumed) are returned
unchanged; otherwise scan split points in
`range(len(text) // 3, len(text) * 2 // 3)` and return the first half at
the first passing one, or the whole text when none passes. -/
def deduplicate_text (text : List Char) : List Char :=
  if text.length < 100 then text
  else
    match dedupLoop text (text.length / 3) (text.length * 2 / 3 - text.length / 3) with
    | some fp => fp
    | none => text

/-- Whether a JSON value is hashable in Python (containers are not);
`url not in seen_urls` on a set raises TypeError for an unhashable
`url`. -/
def hashable : Json → Bool
  | .arr _ => false
  | .obj _ => false
  | _ => true

/-- Python `==` as used for set membership of seen urls.  Membership is
only ever tested on hashable (scalar) values - the `hashable` guard in
`combineStep` raises first otherwise - so container equality is
unreachable and returns `false` without recursion.  Python booleans
compare equal to the numbers 0 and 1. -/
def pyEq : Json → Json → Bool
  | .null, .null => true
  | .bool a, .bool b => a == b
  | .bool a, .num n => (if a then (1 : Int) else 0) == n
  | .num n, .bool a => n == (if a then (1 : Int) else 0)
  | .num a, .num b => a == b
  | .str a, .str b => a == b
  | _, _ => false

/-- One line of the merge loop of `combine_and_dedupe` in
`combine_files.py`.  A line is `none` when `json.loads` raises
`JSONDecodeError` (caught: diagnostic printed, line skipped) and
`some item` when it decodes to `item`.  The state is
`(seen_urls, unique_items)`; `seen_urls` keeps insertion order, which is
irrelevant to membership.  `item.get('url')` on a non-dict raises an
uncaught AttributeError; testing set membership of an unhashable
(container) url raises an uncaught TypeError. -/
def combineStep (st : List Json × List Json) (line : Option Json) :
    Except Unit (List Json × List Json) :=
  match line with
  | none => .ok st
  | some item =>
    match item with
    | .obj kvs =>
      if truthy ((keyGet kvs "url".data).getD Json.null) = false then .ok st
      else if hashable ((keyGet kvs "url".data).getD Json.null) = false then .error ()
      else if st.1.any (fun u => pyEq u ((keyGet kvs "url".data).getD Json.null)) then .ok st
      else .ok (st.1 ++ [(keyGet kvs "url".data).getD Json.null], st.2 ++ [item])
    | _ => .error ()

/-- Left fold of a fallible step over the input lines; an uncaught
exception aborts the whole merge. -/
def foldE (f : (List Json × List Json) → Option Json → Except Unit (List Json × List Json)) :
    (List Json × List Json) → List (Option Json) → Except Unit (List Json × List Json)
  | st, [] => .ok st
  | st, a :: as =>
    match f st a with
    | .error u => .error u
    | .ok st' => foldE f st' as

/-- The batch merge `combine_and_dedupe` of `combine_files.py`, applied
to the concatenated decoded lines of all matched files (file reading and
output writing are I/O around this loop): keep the first record per
truthy url, in first-seen order. -/
def combine_and_dedupe (lines : List (Option Json)) : Except Unit (List Json) :=
  (foldE combineStep ([], []) lines).map (fun st => st.2)

/-- A line the merge loop survives: undecodable (skipped), or decoding
to a mapping whose url value is falsy or hashable. -/
def goodLine : Option Json → Bool
  | none => true
  | some (Json.obj kvs) =>
    !truthy ((keyGet kvs "url".data).getD Json.null)
      || hashable ((keyGet kvs "url".data).getD Json.null)
  | some _ => false

/-- The composite record yielded by the multi-key-leaf branch of
`visit_path` for a mapping `kvs` and the comma-separated name list
`inner`: `{n: data.get(n, None) for n in inner.split(",")}`. -/
def mkComposite (kvs : List (List Char × Json)) (inner : List Char) : Json :=
  Json.obj ((splitComma inner).map (fun nm => (nm, (keyGet kvs nm).getD Json.null)))

/-- A 60-character block with 60 pairwise distinct characters. -/
def u60 : List Char :=
  "0123456789abcdefghijklmnopqrstuvwxyzABCDEFGHIJKLMNOPQRSTUVWX".data

/-- Input refuting idempotence of the normalizer: a primitive
60-character block repeated four times (240 characters). -/
def t3c : List Char := u60 ++ u60 ++ u60 ++ u60

/-- A 50-character block with 50 pairwise distinct characters, none of
them the letter z. -/
def c50 : List Char := "abcdefghijklmnopqrstuvwxyABCDEFGHIJKLMNOPQRSTUVWXY".data

/-- A 160-character text whose self-concatenation fools the 100-character
signature test at split point 110, before the true boundary 160: with
`C = c50` it is `C ++ C ++ zzzzzzzzzz ++ C`. -/
def s7 : List Char := c50 ++ c50 ++ List.replicate 10 'z' ++ c50

/-! Helper lemmas about the path-splitting primitives. -/

theorem splitDot_some_dotCount :
    ∀ (k r : List Char), (splitDot k).2 = some r → dotCount k = dotCount r + 1 := by
  intro k
  induction k with
  | nil => intro r h; simp [splitDot] at h
  | cons c cs ih =>
    intro r h
    by_cases hc : c = '.'
    · simp [splitDot, hc] at h
      simp [dotCount, hc, h]
      omega
    · simp [splitDot, hc] at h
      simp [dotCount, hc, ih r h]

theorem pathFuel_splitDot (k : List Char) :
    pathFuel ((splitDot k).2) + 1 ≤ pathFuel (some k) := by
  cases h2 : (splitDot k).2 with
  | none => simp [pathFuel]
  | some r =>
    have := splitDot_some_dotCount k r h2
    simp [pathFuel]
    omega

theorem splitDot_no_dot :
    ∀ (k : List Char), dotCount k = 0 → splitDot k = (k, none) := by
  intro k
  induction k with
  | nil => intro _; rfl
  | cons c cs ih =>
    intro h
    have hc : ¬ c = '.' := by
      intro hc; simp [dotCount, hc] at h
    have hcs : dotCount cs = 0 := by
      simp [dotCount, hc] at h; exact h
    simp [splitDot, hc, ih hcs]

theorem splitDot_append_dot :
    ∀ (a b : List Char), dotCount a = 0 → splitDot (a ++ '.' :: b) = (a, some b) := by
  intro a
  induction a with
  | nil => intro b _; simp [splitDot]
  | cons c cs ih =>
    intro b h
    have hc : ¬ c = '.' := by
      intro hc; simp [dotCount, hc] at h
    have hcs : dotCount cs = 0 := by
      simp [dotCount, hc] at h; exact h
    simp [splitDot, hc, ih b hcs]

theorem dotCount_append :
    ∀ (a b : List Char), dotCount (a ++ b) = dotCount a + dotCount b := by
  intro a b
  induction a with
  | nil => simp [dotCount]
  | cons c cs ih => simp [dotCount, ih]; omega

theorem splitComma_ne_nil : ∀ (l : List Char), splitComma l ≠ [] := by
  intro l
  cases l with
  | nil => simp [splitComma]
  | cons c cs =>
    by_cases hc : c = ','
    · simp [splitComma, hc]
    · simp only [splitComma, if_neg hc]
      cases splitComma cs <;> simp

theorem isPrefixOf_take :
    ∀ (l : List Char) (n : Nat), ((l.take n).isPrefixOf l) = true := by
  intro l
  induction l with
  | nil => intro n; simp [List.isPrefixOf]
  | cons c cs ih =>
    intro n
    cases n with
    | zero => simp [List.isPrefixOf]
    | succ n => simp [List.isPrefixOf, ih]

/-! Helper lemmas about sequential branch materialization. -/

theorem seqE_congr (f g : Json → Option ExRes) :
    ∀ (vs : List Json), (∀ v ∈ vs, f v = g v) → seqE f vs = seqE g vs := by
  intro vs
  induction vs with
  | nil => intro _; rfl
  | cons v vs ih =>
    intro h
    simp only [seqE]
    rw [h v (by simp), ih (fun w hw => h w (by simp [hw]))]

theorem seqE_isSome (f : Json → Option ExRes) :
    ∀ (vs : List Json), (∀ v ∈ vs, (f v).isSome = true) → (seqE f vs).isSome = true := by
  intro vs
  induction vs with
  | nil => intro _; rfl
  | cons v vs ih =>
    intro h
    have hv := h v (by simp)
    obtain ⟨e, he⟩ := Option.isSome_iff_exists.mp hv
    have hvs := ih (fun w hw => h w (by simp [hw]))
    obtain ⟨e', he'⟩ := Option.isSome_iff_exists.mp hvs
    cases e with
    | error u => simp [seqE, he]
    | ok r => cases e' with
      | error u => simp [seqE, he, he']
      | ok rs => simp [seqE, he, he']

theorem seqE_some (g : Json → ExRes) :
    ∀ (vs : List Json), seqE (fun v => some (g v)) vs = some (exceptConcat (vs.map g)) := by
  intro vs
  induction vs with
  | nil => rfl
  | cons v vs ih =>
    simp only [seqE, ih, List.map_cons, exceptConcat]
    cases g v with
    | error u => rfl
    | ok r => cases exceptConcat (vs.map g) <;> rfl

theorem visitBody_congr (f g : Json → Option (List Char) → Option ExRes) (data : Json)
    (k : List Char) (h : ∀ v, f v ((splitDot k).2) = g v ((splitDot k).2)) :
    visitBody f data (some k) = visitBody g data (some k) := by
  unfold visitBody
  by_cases ht : truthy data = false
  · simp [ht]
  · simp only [if_neg ht]
    by_cases hk : k = []
    · simp [hk]
    · simp only [if_neg hk]
      by_cases h1 : endsWithChar '*' ((splitDot k).1) = true
      · simp only [if_pos h1]
        cases data <;> try rfl
        all_goals exact seqE_congr _ _ _ (fun v _ => h v)
      · simp only [if_neg h1]
        by_cases h2 : endsWithBrack ((splitDot k).1) = true
        · simp only [if_pos h2]
          rcases data with _ | b | n | s | xs | kvs <;> try rfl
          dsimp only []
          cases hkg : keyGet kvs (((splitDot k).1).dropLast.dropLast) with
          | none => rfl
          | some j =>
            rcases j with _ | b2 | n2 | s2 | xs2 | kvs2 <;> try rfl
            all_goals exact seqE_congr _ _ _ (fun v _ => h v)
        · simp only [if_neg h2]
          by_cases h3 : (startsWithChar '[' ((splitDot k).1) && endsWithChar ']' ((splitDot k).1)) = true
          · simp only [if_pos h3]
          · simp only [if_neg h3]
            cases data <;> try rfl
            all_goals exact h _

theorem visitBody_isSome (f : Json → Option (List Char) → Option ExRes) (data : Json)
    (k : List Char) (h : ∀ v, (f v ((splitDot k).2)).isSome = true) :
    (visitBody f data (some k)).isSome = true := by
  unfold visitBody
  by_cases ht : truthy data = false
  · simp [ht]
  · simp only [if_neg ht]
    by_cases hk : k = []
    · simp [hk]
    · simp only [if_neg hk]
      by_cases h1 : endsWithChar '*' ((splitDot k).1) = true
      · simp only [if_pos h1]
        cases data <;> try rfl
        all_goals exact seqE_isSome _ _ (fun v _ => h v)
      · simp only [if_neg h1]
        by_cases h2 : endsWithBrack ((splitDot k).1) = true
        · simp only [if_pos h2]
          rcases data with _ | b | n | s | xs | kvs <;> try rfl
          dsimp only []
          cases hkg : keyGet kvs (((splitDot k).1).dropLast.dropLast) with
          | none => rfl
          | some j =>
            rcases j with _ | b2 | n2 | s2 | xs2 | kvs2 <;> try rfl
            all_goals exact seqE_isSome _ _ (fun v _ => h v)
        · simp only [if_neg h2]
          by_cases h3 : (startsWithChar '[' ((splitDot k).1) && endsWithChar ']' ((splitDot k).1)) = true
          · simp only [if_pos h3]
            cases data <;> rfl
          · simp only [if_neg h3]
            cases data <;> try rfl
            all_goals exact h _

theorem visitF_succ (n : Nat) (data : Json) (key : Option (List Char)) :
    visitF (n + 1) data key = visitBody (fun v r => visitF n v r) data key := rfl

theorem pathFuel_pos (key : Option (List Char)) : 1 ≤ pathFuel key := by
  cases key <;> simp [pathFuel]

theorem visitF_congr_fuel :
    ∀ (n m : Nat) (data : Json) (key : Option (List Char)),
      pathFuel key ≤ n → pathFuel key ≤ m → visitF n data key = visitF m data key := by
  intro n
  induction n with
  | zero =>
    intro m data key hn _
    have := pathFuel_pos key
    omega
  | succ n ih =>
    intro m data key hn hm
    cases m with
    | zero =>
      have := pathFuel_pos key
      omega
    | succ m =>
      rw [visitF_succ, visitF_succ]
      cases key with
      | none =>
        unfold visitBody
        cases truthy data <;> simp
      | some k =>
        apply visitBody_congr
        intro v
        have hsp := pathFuel_splitDot k
        exact ih m v ((splitDot k).2) (by omega) (by omega)

theorem visitF_isSome :
    ∀ (n : Nat) (data : Json) (key : Option (List Char)),
      pathFuel key ≤ n → (visitF n data key).isSome = true := by
  intro n
  induction n with
  | zero =>
    intro data key hn
    have := pathFuel_pos key
    omega
  | succ n ih =>
    intro data key hn
    rw [visitF_succ]
    cases key with
    | none =>
      unfold visitBody
      cases truthy data <;> simp
    | some k =>
      apply visitBody_isSome
      intro v
      have hsp := pathFuel_splitDot k
      exact ih v ((splitDot k).2) (by omega)

theorem visit_path_eq (n : Nat) (data : Json) (key : Option (List Char))
    (h : pathFuel key ≤ n) : visitF n data key = some (visit_path data key) := by
  have h1 : visitF n data key = visitF (pathFuel key) data key :=
    visitF_congr_fuel n (pathFuel key) data key h (Nat.le_refl _)
  have h2 := visitF_isSome (pathFuel key) data key (Nat.le_refl _)
  obtain ⟨r, hr⟩ := Option.isSome_iff_exists.mp h2
  unfold visit_path
  rw [h1, hr]
  rfl

theorem visit_path_falsy (data : Json) (key : Option (List Char))
    (h : truthy data = false) : visit_path data key = .ok [] := by
  unfold visit_path
  obtain ⟨n, hn⟩ : ∃ n, pathFuel key = n + 1 :=
    ⟨pathFuel key - 1, by have := pathFuel_pos key; omega⟩
  rw [hn, visitF_succ]
  unfold visitBody
  rw [if_pos h]
  rfl

theorem visit_path_empty_key (data : Json) (h : truthy data = true) :
    visit_path data (some []) = .ok [data] := by
  unfold visit_path
  rw [show pathFuel (some []) = 1 + 1 from rfl, visitF_succ]
  unfold visitBody
  rw [if_neg (by simp [h])]
  rfl

/-- Master unfolding lemma: one step of `visit_path` on a nonempty key,
with the recursive occurrences replaced by `visit_path` itself at the
remaining key (justified by fuel sufficiency). -/
theorem visit_path_some (data : Json) (k : List Char) :
    visit_path data (some k) =
      (visitBody (fun v _ => some (visit_path v ((splitDot k).2))) data (some k)).getD (.ok []) := by
  have h1 : visit_path data (some k) = (visitF (dotCount k + 1 + 1) data (some k)).getD (.ok []) := rfl
  have hcong := visitBody_congr (fun v r => visitF (dotCount k + 1) v r)
      (fun v _ => some (visit_path v ((splitDot k).2))) data k
      (fun v => visit_path_eq (dotCount k + 1) v ((splitDot k).2)
        (by
          have h2 := pathFuel_splitDot k
          have h3 : pathFuel (some k) = dotCount k + 1 + 1 := rfl
          omega))
  rw [h1, visitF_succ, hcong]

theorem seqE_ok_mem (f : Json → Option ExRes) :
    ∀ (vs : List Json) (r : List Json), seqE f vs = some (.ok r) →
      ∀ w ∈ r, ∃ v ∈ vs, ∃ rv, f v = some (.ok rv) ∧ w ∈ rv := by
  intro vs
  induction vs with
  | nil =>
    intro r h w hw
    simp [seqE] at h
    subst h
    simp at hw
  | cons v vs ih =>
    intro r h w hw
    cases hfv : f v with
    | none => simp [seqE, hfv] at h
    | some e =>
      cases e with
      | error u => simp [seqE, hfv] at h
      | ok rv =>
        cases hrest : seqE f vs with
        | none => simp [seqE, hfv, hrest] at h
        | some e' =>
          cases e' with
          | error u => simp [seqE, hfv, hrest] at h
          | ok rs =>
            simp [seqE, hfv, hrest] at h
            subst h
            rcases List.mem_append.mp hw with hw1 | hw2
            · exact ⟨v, by simp, rv, hfv, hw1⟩
            · obtain ⟨v', hv', rv', hfv', hw'⟩ := ih rs hrest w hw2
              exact ⟨v', by simp [hv'], rv', hfv', hw'⟩

/-! Helper lemmas about token classification. -/

theorem endsWithChar_concat (c d : Char) (l : List Char) :
    endsWithChar c (l ++ [d]) = (d == c) := by
  unfold endsWithChar
  rw [show (l ++ [d]).reverse = d :: l.reverse by simp]

theorem reverse_append_two (name : List Char) (a b : Char) :
    (name ++ [a, b]).reverse = b :: a :: name.reverse := by
  rw [show name ++ [a, b] = (name ++ [a]) ++ [b] by simp]
  simp

theorem endsWithChar_arrtok (name : List Char) :
    endsWithChar '*' (name ++ ['[', ']']) = false := by
  unfold endsWithChar
  rw [reverse_append_two]
  rfl

theorem endsWithBrack_arrtok (name : List Char) :
    endsWithBrack (name ++ ['[', ']']) = true := by
  unfold endsWithBrack
  rw [reverse_append_two]
  rfl

theorem dropLast_concat_two (name : List Char) (a b : Char) :
    (name ++ [a, b]).dropLast.dropLast = name := by
  rw [show name ++ [a, b] = (name ++ [a]) ++ [b] by simp]
  rw [List.dropLast_concat, List.dropLast_concat]

theorem endsWithBrack_multitok (inner : List Char) (hne : inner ≠ [])
    (hlast : endsWithChar '[' inner = false) :
    endsWithBrack ('[' :: inner ++ [']']) = false := by
  unfold endsWithBrack
  rw [show ('[' :: inner) ++ [']'] = ('[' :: inner) ++ [']'] from rfl,
    show (('[' :: inner) ++ [']']).reverse = ']' :: (inner.reverse ++ ['[']) by simp]
  cases hrev : inner.reverse with
  | nil => exact absurd (by simpa using congrArg List.reverse hrev) hne
  | cons c cs =>
    unfold endsWithChar at hlast
    rw [hrev] at hlast
    simp at hlast ⊢
    exact hlast

theorem dotCount_multitok (inner : List Char) (h : dotCount inner = 0) :
    dotCount ('[' :: inner ++ [']']) = 0 := by
  simp [dotCount, dotCount_append, h]

theorem truthy_multiComposite (f : List Char → List Char × Json) (l : List Char) :
    truthy (Json.obj ((splitComma l).map f)) = true := by
  cases hsc : splitComma l with
  | nil => exact absurd hsc (splitComma_ne_nil _)
  | cons g gs => simp [truthy, hsc]

/-! Invariant: every value the matcher yields is truthy. -/

theorem visitF_ok_truthy :
    ∀ (n : Nat) (data : Json) (key : Option (List Char)) (r : List Json),
      visitF n data key = some (.ok r) → ∀ v ∈ r, truthy v = true := by
  intro n
  induction n with
  | zero => intro data key r h; simp [visitF] at h
  | succ n ih =>
    intro data key r h
    rw [visitF_succ] at h
    unfold visitBody at h
    by_cases ht : truthy data = false
    · rw [if_pos ht] at h
      simp at h
      subst h
      simp
    · rw [if_neg ht] at h
      have htd : truthy data = true := by revert ht; cases truthy data <;> simp
      cases key with
      | none =>
        dsimp only [] at h
        simp at h
        subst h
        intro v hv
        simp at hv
        subst hv
        exact htd
      | some k =>
        dsimp only [] at h
        by_cases hk : k = []
        · rw [if_pos hk] at h
          simp at h
          subst h
          intro v hv
          simp at hv
          subst hv
          exact htd
        · rw [if_neg hk] at h
          by_cases h1 : endsWithChar '*' ((splitDot k).1) = true
          · rw [if_pos h1] at h
            rcases data with _ | b | n2 | s | xs | kvs
            · simp [truthy] at htd
            · simp at h
            · simp at h
            · simp at h
            · simp at h
            · dsimp only [] at h
              intro v hv
              obtain ⟨w, hw, rw2, hfw, hv2⟩ := seqE_ok_mem _ _ _ h v hv
              exact ih w _ rw2 hfw v hv2
          · rw [if_neg h1] at h
            by_cases h2 : endsWithBrack ((splitDot k).1) = true
            · rw [if_pos h2] at h
              rcases data with _ | b | n2 | s | xs | kvs
              · simp [truthy] at htd
              · simp at h
              · simp at h
              · simp at h
              · simp at h
              · dsimp only [] at h
                cases hkg : keyGet kvs (((splitDot k).1).dropLast.dropLast) with
                | none =>
                  rw [hkg] at h
                  simp at h
                  subst h
                  simp
                | some j =>
                  rw [hkg] at h
                  rcases j with _ | b2 | n2 | s2 | xs2 | kvs2
                  · simp at h
                  · simp at h
                  · simp at h
                  · dsimp only [] at h
                    intro v hv
                    obtain ⟨w, hw, rw2, hfw, hv2⟩ := seqE_ok_mem _ _ _ h v hv
                    exact ih w _ rw2 hfw v hv2
                  · dsimp only [] at h
                    intro v hv
                    obtain ⟨w, hw, rw2, hfw, hv2⟩ := seqE_ok_mem _ _ _ h v hv
                    exact ih w _ rw2 hfw v hv2
                  · dsimp only [] at h
                    intro v hv
                    obtain ⟨w, hw, rw2, hfw, hv2⟩ := seqE_ok_mem _ _ _ h v hv
                    exact ih w _ rw2 hfw v hv2
            · rw [if_neg h2] at h
              by_cases h3 : (startsWithChar '[' ((splitDot k).1) && endsWithChar ']' ((splitDot k).1)) = true
              · rw [if_pos h3] at h
                rcases data with _ | b | n2 | s | xs | kvs
                · simp [truthy] at htd
                · simp at h
                · simp at h
                · simp at h
                · simp at h
                · dsimp only [] at h
                  simp at h
                  subst h
                  intro v hv
                  simp at hv
                  subst hv
                  exact truthy_multiComposite _ _
              · rw [if_neg h3] at h
                rcases data with _ | b | n2 | s | xs | kvs
                · simp [truthy] at htd
                · simp at h
                · simp at h
                · simp at h
                · simp at h
                · dsimp only [] at h
                  exact fun v hv => ih _ _ _ h v hv

/-! The claim theorems. -/

/-- Claim C1, counterexample: matching null against the empty path does
not yield the one-element sequence containing null.  The guard
`if not data: return` precedes the empty-key yield, so the result is the
empty match list instead. -/
theorem c1_counterexample : visitPath Json.null "" ≠ Except.ok [Json.null] := by
  rw [show visitPath Json.null "" = Except.ok [] from rfl]
  simp

/-- Claim C1, amended: matching a JSON value against the empty path
yields exactly the one-element sequence containing the value when the
value is truthy, and yields nothing when the value is falsy (null,
false, 0, the empty string, an empty mapping, or an empty sequence). -/
theorem c1_empty_path (v : Json) :
    visitPath v "" = Except.ok (if truthy v = true then [v] else []) := by
  show visit_path v (some []) = _
  by_cases h : truthy v = true
  · rw [if_pos h]
    exact visit_path_empty_key v h
  · rw [if_neg h]
    exact visit_path_falsy v _ (by revert h; cases truthy v <;> simp)

/-- Claim C2, counterexample: resolving a Key segment against a truthy
non-mapping (here a nonempty sequence) raises an uncaught AttributeError
(`data.get` does not exist on a list) instead of yielding nothing. -/
theorem c2_counterexample : visitPath (Json.arr [Json.num 1]) "a" = Except.error () := rfl

/-- Claim C2, amended: resolving any nonempty path against a falsy value
yields nothing, but resolving it against a truthy non-mapping value
raises an uncaught error (AttributeError from `data.get` or
`data.keys`), for every segment kind. -/
theorem c2_nonmapping_error (v : Json) (k : List Char)
    (ht : truthy v = true) (ho : isObjB v = false) (hk : k ≠ []) :
    visit_path v (some k) = Except.error () := by
  rw [visit_path_some]
  unfold visitBody
  rw [if_neg (by simp [ht])]
  dsimp only []
  rw [if_neg hk]
  rcases v with _ | b | n2 | s | xs | kvs
  · simp [truthy] at ht
  · dsimp only []; simp
  · dsimp only []; simp
  · dsimp only []; simp
  · dsimp only []; simp
  · simp [isObjB] at ho

/-- Claim C2, witness for the amended theorem at a concrete input. -/
theorem c2_witness : truthy (Json.arr [Json.num 1]) = true ∧
    isObjB (Json.arr [Json.num 1]) = false ∧ ("x".data ≠ ([] : List Char)) ∧
    visit_path (Json.arr [Json.num 1]) (some "x".data) = Except.error () :=
  ⟨by decide, by decide, by decide,
    c2_nonmapping_error _ _ (by decide) (by decide) (by decide)⟩

/-- Claim C8: the matcher terminates within a recursion-depth budget
computed from the path alone - one more than the path's segment count -
for every JSON value: any fuel at least `pathFuel key` produces the same
result, and that result is never the out-of-fuel marker `none`.  Depth
is therefore bounded by the path's segment count plus a constant,
independently of the document's depth. -/
theorem c8_depth_bounded (data : Json) (key : Option (List Char)) (n : Nat)
    (h : pathFuel key ≤ n) :
    visitF n data key = visitF (pathFuel key) data key ∧ visitF n data key ≠ none := by
  refine ⟨visitF_congr_fuel n (pathFuel key) data key h (Nat.le_refl _), ?_⟩
  have h2 := visitF_isSome n data key h
  intro hc
  rw [hc] at h2
  simp at h2

/-- Claim C8, witness at a concrete deep document and two-segment path. -/
theorem c8_witness : pathFuel (some "a.b".data) ≤ 9 ∧
    (visitF 9 (Json.obj [("a".data, Json.obj [("b".data, Json.num 7)])]) (some "a.b".data) =
      visitF (pathFuel (some "a.b".data))
        (Json.obj [("a".data, Json.obj [("b".data, Json.num 7)])]) (some "a.b".data) ∧
     visitF 9 (Json.obj [("a".data, Json.obj [("b".data, Json.num 7)])]) (some "a.b".data) ≠ none) :=
  ⟨by decide, c8_depth_bounded _ _ 9 (by decide)⟩

/-- Claim C9: every value yielded by the matcher is truthy - never
null, false, 0, the empty string, an empty sequence, or an empty
mapping.  Falsy values reachable at a matching path are omitted by the
`if not data: return` guard, and composite multi-key records are
nonempty mappings, hence truthy. -/
theorem c9_truthy_invariant (data : Json) (key : Option (List Char)) (r : List Json)
    (h : visit_path data key = .ok r) : ∀ v ∈ r, truthy v = true := by
  have he := visit_path_eq (pathFuel key) data key (Nat.le_refl _)
  rw [h] at he
  exact visitF_ok_truthy (pathFuel key) data key r he

/-- Claim C9, witness at a concrete lookup. -/
theorem c9_witness :
    visit_path (Json.obj [("a".data, Json.num 3)]) (some "a".data) = Except.ok [Json.num 3] ∧
    ∀ v ∈ [Json.num 3], truthy v = true :=
  ⟨rfl, c9_truthy_invariant (Json.obj [("a".data, Json.num 3)]) (some "a".data) [Json.num 3] rfl⟩

/-- Claim C5, counterexample: a multi-key leaf against the empty mapping
yields nothing (the falsy-data guard fires first), not the composite of
all-null fields the claim promises for every mapping. -/
theorem c5_counterexample :
    visitPath (Json.obj []) "[a,b,c,d]" = Except.ok [] ∧
    visitPath (Json.obj []) "[a,b,c,d]" ≠ Except.ok
      [Json.obj [("a".data, Json.null), ("b".data, Json.null),
        ("c".data, Json.null), ("d".data, Json.null)]] := by
  constructor
  · rfl
  · rw [show visitPath (Json.obj []) "[a,b,c,d]" = Except.ok [] from rfl]
    simp

/-- Claim C5, amended: a multi-key leaf `[n1,...,nk]` against a
*nonempty* mapping yields exactly one composite
`{n: value.get(n, null) for n in names}`; any segments after the leaf
are ignored; and a null current value yields nothing.  (The empty
mapping also yields nothing, being falsy.)  The hypotheses state that
the name list is a well-formed leaf token: no dots, nonempty, not
ending in an opening bracket. -/
theorem c5_multikey (kvs : List (List Char × Json)) (inner rest : List Char)
    (hne : kvs ≠ []) (hdot : dotCount inner = 0) (hinner : inner ≠ [])
    (hlast : endsWithChar '[' inner = false) :
    visit_path (Json.obj kvs) (some ('[' :: inner ++ [']'])) = .ok [mkComposite kvs inner] ∧
    visit_path (Json.obj kvs) (some (('[' :: inner ++ [']']) ++ '.' :: rest))
      = .ok [mkComposite kvs inner] ∧
    visit_path Json.null (some ('[' :: inner ++ [']'])) = .ok [] := by
  have htr : truthy (Json.obj kvs) = true := by
    cases kvs with
    | nil => exact absurd rfl hne
    | cons p ps => rfl
  have htok0 : dotCount ('[' :: inner ++ [']']) = 0 := dotCount_multitok inner hdot
  have hstar : endsWithChar '*' ('[' :: inner ++ [']']) = false := by
    rw [endsWithChar_concat]
    rfl
  have hbrk : endsWithBrack ('[' :: inner ++ [']']) = false :=
    endsWithBrack_multitok inner hinner hlast
  have hml : (startsWithChar '[' ('[' :: inner ++ [']'])
      && endsWithChar ']' ('[' :: inner ++ [']'])) = true := by
    rw [endsWithChar_concat]
    rfl
  have hdrop : ((('[' :: inner ++ [']']).drop 1).dropLast) = inner := by
    rw [show ('[' :: inner ++ [']']).drop 1 = inner ++ [']'] from rfl, List.dropLast_concat]
  refine ⟨?_, ?_, visit_path_falsy Json.null _ rfl⟩
  · have hsd1 : splitDot ('[' :: inner ++ [']']) = ('[' :: inner ++ [']'], none) :=
      splitDot_no_dot _ htok0
    rw [visit_path_some]
    unfold visitBody
    rw [if_neg (by simp [htr])]
    try dsimp only []
    rw [if_neg (show ¬ ('[' :: inner ++ [']']) = [] by simp)]
    rw [hsd1]
    try dsimp only []
    rw [if_neg (by rw [hstar]; simp), if_neg (by rw [hbrk]; simp), if_pos hml]
    try dsimp only []
    rw [hdrop]
    rfl
  · have hsd2 : splitDot (('[' :: inner ++ [']']) ++ '.' :: rest)
        = ('[' :: inner ++ [']'], some rest) :=
      splitDot_append_dot _ _ htok0
    rw [visit_path_some]
    unfold visitBody
    rw [if_neg (by simp [htr])]
    try dsimp only []
    rw [if_neg (show ¬ (('[' :: inner ++ [']']) ++ '.' :: rest) = [] by simp)]
    rw [hsd2]
    try dsimp only []
    rw [if_neg (by rw [hstar]; simp), if_neg (by rw [hbrk]; simp), if_pos hml]
    try dsimp only []
    rw [hdrop]
    rfl

/-- Claim C5, witness: the amended theorem at the spec's own example,
with the trailing-segment clause exercised too. -/
theorem c5_witness :
    ([("a".data, Json.num 1), ("b".data, Json.num 2), ("c".data, Json.null)]
      ≠ ([] : List (List Char × Json))) ∧
    dotCount "a,b,c,d".data = 0 ∧ "a,b,c,d".data ≠ ([] : List Char) ∧
    endsWithChar '[' "a,b,c,d".data = false ∧
    visitPath (Json.obj [("a".data, Json.num 1), ("b".data, Json.num 2), ("c".data, Json.null)])
      "[a,b,c,d]" = Except.ok [Json.obj [("a".data, Json.num 1), ("b".data, Json.num 2),
        ("c".data, Json.null), ("d".data, Json.null)]] ∧
    visit_path (Json.obj [("a".data, Json.num 1), ("b".data, Json.num 2), ("c".data, Json.null)])
      (some (('[' :: "a,b,c,d".data ++ [']']) ++ '.' :: "x".data))
      = Except.ok [Json.obj [("a".data, Json.num 1), ("b".data, Json.num 2),
        ("c".data, Json.null), ("d".data, Json.null)]] := by
  have h := c5_multikey
    [("a".data, Json.num 1), ("b".data, Json.num 2), ("c".data, Json.null)]
    "a,b,c,d".data "x".data (by simp) (by decide) (by simp) (by decide)
  refine ⟨by simp, by decide, by simp, by decide, ?_, ?_⟩
  · rw [show visitPath
      (Json.obj [("a".data, Json.num 1), ("b".data, Json.num 2), ("c".data, Json.null)])
      "[a,b,c,d]" = visit_path
      (Json.obj [("a".data, Json.num 1), ("b".data, Json.num 2), ("c".data, Json.null)])
      (some ('[' :: "a,b,c,d".data ++ [']'])) from rfl, h.1]
    rfl
  · rw [h.2.1]
    rfl

/-- Claim C6: array-key expansion on any mapping treats an absent name
as the empty sequence, and on a present sequence `[A, B, ...]`
concatenates the matches of each element under the remaining segments,
in the source element order. -/
theorem c6_arraykey (kvs : List (List Char × Json)) (name : List Char) (r : List Char)
    (hdot : dotCount name = 0) :
    (keyGet kvs name = none →
      visit_path (Json.obj kvs) (some ((name ++ ['[', ']']) ++ '.' :: r)) = .ok []) ∧
    (∀ xs : List Json, keyGet kvs name = some (Json.arr xs) →
      visit_path (Json.obj kvs) (some ((name ++ ['[', ']']) ++ '.' :: r)) =
        exceptConcat (xs.map (fun v => visit_path v (some r)))) := by
  have htok0 : dotCount (name ++ ['[', ']']) = 0 := by
    rw [dotCount_append, hdot]
    rfl
  have hsd : splitDot ((name ++ ['[', ']']) ++ '.' :: r) = (name ++ ['[', ']'], some r) :=
    splitDot_append_dot _ _ htok0
  have hstar := endsWithChar_arrtok name
  have hbrk := endsWithBrack_arrtok name
  have hdl := dropLast_concat_two name '[' ']'
  constructor
  · intro hkg
    by_cases hkvs : kvs = []
    · subst hkvs
      exact visit_path_falsy _ _ rfl
    · have htr : truthy (Json.obj kvs) = true := by
        cases kvs with
        | nil => exact absurd rfl hkvs
        | cons p ps => rfl
      rw [visit_path_some]
      unfold visitBody
      rw [if_neg (by simp [htr])]
      try dsimp only []
      rw [if_neg (show ¬ ((name ++ ['[', ']']) ++ '.' :: r) = [] by simp)]
      rw [hsd]
      try dsimp only []
      rw [if_neg (by rw [hstar]; simp), if_pos hbrk]
      try dsimp only []
      rw [hdl, hkg]
      rfl
  · intro xs hkg
    have hkvs : kvs ≠ [] := by
      intro he
      rw [he] at hkg
      simp [keyGet] at hkg
    have htr : truthy (Json.obj kvs) = true := by
      cases kvs with
      | nil => exact absurd rfl hkvs
      | cons p ps => rfl
    rw [visit_path_some]
    unfold visitBody
    rw [if_neg (by simp [htr])]
    try dsimp only []
    rw [if_neg (show ¬ ((name ++ ['[', ']']) ++ '.' :: r) = [] by simp)]
    rw [hsd]
    try dsimp only []
    rw [if_neg (by rw [hstar]; simp), if_pos hbrk]
    try dsimp only []
    rw [hdl, hkg]
    try dsimp only []
    rw [seqE_some]
    rfl

/-- Claim C6, witness: absent name yields nothing; a present two-element
array concatenates the element matches in source order. -/
theorem c6_witness :
    dotCount "items".data = 0 ∧
    keyGet [] "items".data = none ∧
    visit_path (Json.obj []) (some (("items".data ++ ['[', ']']) ++ '.' :: "y".data))
      = Except.ok [] ∧
    keyGet [("items".data, Json.arr [Json.obj [("y".data, Json.num 1)],
        Json.obj [("y".data, Json.num 2)]])] "items".data
      = some (Json.arr [Json.obj [("y".data, Json.num 1)], Json.obj [("y".data, Json.num 2)]]) ∧
    visit_path (Json.obj [("items".data, Json.arr [Json.obj [("y".data, Json.num 1)],
        Json.obj [("y".data, Json.num 2)]])])
      (some (("items".data ++ ['[', ']']) ++ '.' :: "y".data)) =
      exceptConcat ([Json.obj [("y".data, Json.num 1)],
        Json.obj [("y".data, Json.num 2)]].map (fun v => visit_path v (some "y".data))) ∧
    exceptConcat ([Json.obj [("y".data, Json.num 1)],
        Json.obj [("y".data, Json.num 2)]].map (fun v => visit_path v (some "y".data)))
      = Except.ok [Json.num 1, Json.num 2] := by
  refine ⟨by decide, rfl, ?_, rfl, ?_, rfl⟩
  · exact (c6_arraykey [] "items".data "y".data (by decide)).1 rfl
  · exact (c6_arraykey [("items".data, Json.arr [Json.obj [("y".data, Json.num 1)],
      Json.obj [("y".data, Json.num 2)]])] "items".data "y".data (by decide)).2
      [Json.obj [("y".data, Json.num 1)], Json.obj [("y".data, Json.num 2)]] rfl

/-! Helper lemmas about the normalizer scan. -/

theorem dedupLoop_some (text : List Char) :
    ∀ (k p : Nat) (fp : List Char), dedupLoop text p k = some fp →
      ∃ j, j < k ∧ fp = text.take (p + j) ∧ dedupCond text (p + j) = true := by
  intro k
  induction k with
  | zero => intro p fp h; simp [dedupLoop] at h
  | succ k ih =>
    intro p fp h
    unfold dedupLoop at h
    by_cases hc : dedupCond text p = true
    · rw [if_pos hc] at h
      refine ⟨0, by omega, ?_, ?_⟩
      · rw [Nat.add_zero]
        exact (Option.some.inj h).symm
      · rw [Nat.add_zero]
        exact hc
    · rw [if_neg hc] at h
      obtain ⟨j, hj, hfp, hcj⟩ := ih (p + 1) fp h
      refine ⟨j + 1, by omega, ?_, ?_⟩
      · rw [hfp]
        congr 1
        omega
      · rw [show p + (j + 1) = p + 1 + j by omega]
        exact hcj

theorem dedupLoop_first (text : List Char) :
    ∀ (k p q : Nat), p ≤ q → q < p + k → dedupCond text q = true →
      ∃ p0, p ≤ p0 ∧ p0 ≤ q ∧ dedupLoop text p k = some (text.take p0) := by
  intro k
  induction k with
  | zero => intro p q h1 h2 _; omega
  | succ k ih =>
    intro p q h1 h2 hq
    by_cases hc : dedupCond text p = true
    · exact ⟨p, Nat.le_refl p, h1, by unfold dedupLoop; rw [if_pos hc]⟩
    · have hpq : p ≠ q := by
        intro he
        subst he
        exact hc hq
      obtain ⟨p0, ha, hb, hc2⟩ := ih (p + 1) q (by omega) (by omega) hq
      exact ⟨p0, by omega, hb, by unfold dedupLoop; rw [if_neg hc]; exact hc2⟩

/-- Claim C10: the normalizer returns either the text unchanged or a
strict prefix `text[:s]` with `len(text) // 3 <= s < len(text) * 2 // 3`;
in particular the result is always a prefix of the input and never
longer than it. -/
theorem c10_prefix (text : List Char) :
    ((deduplicate_text text).isPrefixOf text = true) ∧
    (deduplicate_text text = text ∨
      ∃ s, text.length / 3 ≤ s ∧ s < text.length * 2 / 3 ∧ s < text.length ∧
        deduplicate_text text = text.take s) := by
  by_cases h100 : text.length < 100
  · have hd : deduplicate_text text = text := by
      unfold deduplicate_text
      rw [if_pos h100]
    refine ⟨?_, Or.inl hd⟩
    rw [hd]
    have := isPrefixOf_take text text.length
    rwa [List.take_length] at this
  · cases hdl : dedupLoop text (text.length / 3) (text.length * 2 / 3 - text.length / 3) with
    | none =>
      have hd : deduplicate_text text = text := by
        unfold deduplicate_text
        rw [if_neg h100, hdl]
      refine ⟨?_, Or.inl hd⟩
      rw [hd]
      have := isPrefixOf_take text text.length
      rwa [List.take_length] at this
    | some fp =>
      have hd : deduplicate_text text = fp := by
        unfold deduplicate_text
        rw [if_neg h100, hdl]
      obtain ⟨j, hj, hfp, _⟩ := dedupLoop_some text _ _ _ hdl
      refine ⟨?_, Or.inr ⟨text.length / 3 + j, by omega, by omega, by omega, ?_⟩⟩
      · rw [hd, hfp]
        exact isPrefixOf_take _ _
      · rw [hd, hfp]

/-- Claim C3, counterexample: the normalizer is not idempotent.  On a
primitive 60-character block repeated four times, the first pass keeps
two copies and a second pass halves it again. -/
theorem c3_counterexample :
    deduplicate_text (deduplicate_text t3c) ≠ deduplicate_text t3c := by decide

/-- Claim C3, amended: the normalizer is idempotent on every input of
length at most 150, because any truncation it performs there yields a
result shorter than 100 characters, which a second pass returns
unchanged; on longer inputs idempotence can fail (see the
counterexample). -/
theorem c3_idempotent_short (text : List Char) (h : text.length ≤ 150) :
    deduplicate_text (deduplicate_text text) = deduplicate_text text := by
  by_cases h100 : text.length < 100
  · have hd : deduplicate_text text = text := by
      unfold deduplicate_text
      rw [if_pos h100]
    rw [hd, hd]
  · cases hdl : dedupLoop text (text.length / 3) (text.length * 2 / 3 - text.length / 3) with
    | none =>
      have hd : deduplicate_text text = text := by
        unfold deduplicate_text
        rw [if_neg h100, hdl]
      rw [hd, hd]
    | some fp =>
      have hd : deduplicate_text text = fp := by
        unfold deduplicate_text
        rw [if_neg h100, hdl]
      obtain ⟨j, hj, hfp, _⟩ := dedupLoop_some text _ _ _ hdl
      have hlen : fp.length < 100 := by
        rw [hfp, List.length_take]
        omega
      rw [hd]
      unfold deduplicate_text
      rw [if_pos hlen]

/-- Claim C3, witness for the amended idempotence bound at a short
input. -/
theorem c3_witness :
    u60.length ≤ 150 ∧ deduplicate_text (deduplicate_text u60) = deduplicate_text u60 :=
  ⟨by decide, c3_idempotent_short u60 (by decide)⟩

/-- Claim C7, counterexample: for the 160-character text `s7`, the scan
fires at split point 110, before the true duplication boundary 160: the
result is neither `s7` nor a prefix ending at any point where the text
actually repeats (the remainder does not start with the returned
prefix). -/
theorem c7_counterexample :
    60 ≤ s7.length ∧
    deduplicate_text (s7 ++ s7) ≠ s7 ∧
    ((deduplicate_text (s7 ++ s7)).isPrefixOf
      ((s7 ++ s7).drop (deduplicate_text (s7 ++ s7)).length)) = false :=
  ⟨by decide, by decide, by decide⟩

/-- Claim C7, amended: for every text `S` of length at least 60,
normalizing `S ++ S` truncates at the first split point in the scan
window that passes the signature test; the point `|S|` always passes,
so the scan fires at some `p ≤ |S|` and the result is the prefix
`S[:p]` of `S` (equal to `S` itself unless an earlier window point
passes first, which needs `S` to repeat internally). -/
theorem c7_duplication (S : List Char) (h : 60 ≤ S.length) :
    ∃ p, (S.length + S.length) / 3 ≤ p ∧ p ≤ S.length ∧
      deduplicate_text (S ++ S) = S.take p := by
  have hlen : (S ++ S).length = S.length + S.length := by simp
  have h100 : ¬ (S ++ S).length < 100 := by
    rw [hlen]
    omega
  have hcond : dedupCond (S ++ S) S.length = true := by
    unfold dedupCond
    rw [List.take_left, List.drop_left, isPrefixOf_take]
    simp
    omega
  have hlo : (S ++ S).length / 3 ≤ S.length := by
    rw [hlen]
    omega
  have hhi : S.length <
      (S ++ S).length / 3 + ((S ++ S).length * 2 / 3 - (S ++ S).length / 3) := by
    rw [hlen]
    omega
  obtain ⟨p0, hp0a, hp0b, hdl⟩ := dedupLoop_first (S ++ S) _ _ _ hlo hhi hcond
  refine ⟨p0, by rw [hlen] at hp0a; exact hp0a, hp0b, ?_⟩
  have hd : deduplicate_text (S ++ S) = (S ++ S).take p0 := by
    unfold deduplicate_text
    rw [if_neg h100, hdl]
  rw [hd]
  exact List.take_append_of_le_length hp0b

/-- Claim C7, witness for the amended theorem at a 60-character block. -/
theorem c7_witness : 60 ≤ u60.length ∧
    ∃ p, (u60.length + u60.length) / 3 ≤ p ∧ p ≤ u60.length ∧
      deduplicate_text (u60 ++ u60) = u60.take p :=
  ⟨by decide, c7_duplication u60 (by decide)⟩

/-! The batch merge. -/

theorem foldE_cons_ok (f : (List Json × List Json) → Option Json → Except Unit (List Json × List Json))
    (st st' : List Json × List Json) (a : Option Json) (as : List (Option Json))
    (h : f st a = .ok st') : foldE f st (a :: as) = foldE f st' as := by
  show (match f st a with
    | .error u => Except.error u
    | .ok st2 => foldE f st2 as) = foldE f st' as
  rw [h]

theorem foldE_ok :
    ∀ (lines : List (Option Json)) (st : List Json × List Json),
      (∀ l ∈ lines, goodLine l = true) →
      ∃ st2, foldE combineStep st lines = .ok st2 := by
  intro lines
  induction lines with
  | nil => intro st _; exact ⟨st, rfl⟩
  | cons l ls ih =>
    intro st h
    have hl := h l (by simp)
    have hrest : ∀ x ∈ ls, goodLine x = true := fun x hx => h x (by simp [hx])
    cases l with
    | none =>
      rw [foldE_cons_ok _ _ st _ _ rfl]
      exact ih st hrest
    | some item =>
      cases item with
      | null => simp [goodLine] at hl
      | bool b => simp [goodLine] at hl
      | num n => simp [goodLine] at hl
      | str s2 => simp [goodLine] at hl
      | arr xs => simp [goodLine] at hl
      | obj kvs =>
        by_cases ht : truthy ((keyGet kvs "url".data).getD Json.null) = false
        · rw [foldE_cons_ok _ _ st _ _ (by unfold combineStep; dsimp only []; rw [if_pos ht])]
          exact ih st hrest
        · have hhash : hashable ((keyGet kvs "url".data).getD Json.null) = true := by
            unfold goodLine at hl
            rcases Bool.or_eq_true_iff.mp hl with h1 | h1
            · rw [Bool.not_eq_true'] at h1
              exact absurd h1 ht
            · exact h1
          by_cases hmem :
              (st.1.any (fun u => pyEq u ((keyGet kvs "url".data).getD Json.null))) = true
          · rw [foldE_cons_ok _ _ st _ _
              (by unfold combineStep; dsimp only []; rw [if_neg ht, if_neg (by rw [hhash]; simp), if_pos hmem])]
            exact ih st hrest
          · rw [foldE_cons_ok _ _ _ _ _
              (by unfold combineStep; dsimp only []; rw [if_neg ht, if_neg (by rw [hhash]; simp), if_neg hmem])]
            exact ih _ hrest

/-- Claim C4, counterexample: a line that decodes to a valid JSON value
that is not a mapping (here the number 42) aborts the whole merge: only
`JSONDecodeError` is caught, and `item.get('url')` on a non-dict raises
an uncaught AttributeError. -/
theorem c4_counterexample :
    combine_and_dedupe [some (Json.num 42)] = Except.error () := rfl

/-- Claim C4, amended: lines whose decoding fails are skipped (with a
per-line diagnostic) and never abort the merge, and the merge completes
with output whenever every decodable line is a mapping whose url value
is falsy or hashable; but an entry decoding to a non-mapping value, or
a mapping with a truthy container url, raises an uncaught error that
aborts the whole merge (see the counterexample). -/
theorem c4_merge_robustness :
    (∀ rest, combine_and_dedupe (none :: rest) = combine_and_dedupe rest) ∧
    (∀ lines : List (Option Json), (∀ l ∈ lines, goodLine l = true) →
      ∃ out, combine_and_dedupe lines = Except.ok out) := by
  constructor
  · intro rest
    rfl
  · intro lines h
    obtain ⟨st2, hst⟩ := foldE_ok lines ([], []) h
    refine ⟨st2.2, ?_⟩
    unfold combine_and_dedupe
    rw [hst]
    rfl

/-- Claim C4, witness: a merge over a decode-failed line and a
well-formed record completes. -/
theorem c4_witness :
    (∀ l ∈ [none, some (Json.obj [("url".data, Json.str "x".data)]), none],
      goodLine l = true) ∧
    ∃ out, combine_and_dedupe
      [none, some (Json.obj [("url".data, Json.str "x".data)]), none] = Except.ok out :=
  ⟨by decide, c4_merge_robustness.2 _ (by decide)⟩

end GoodreadsScraper
